import Mathlib

/-!
Shallow embedding of the `TransferHttpCacheInterceptor` from
`modules/common` of the universal repository (file `src/unnamed/part_000`).

The interceptor mediates HTTP requests: while its cache-activity flag is
true it serves allow-listed read-only requests from a key/value Transfer
Store, records responses of cache misses, and permanently deactivates
itself on the application-stability signal or on a disqualifying request.

Modelling decisions:
* `HttpHeaders` is an ordered association list from header name to the
  ordered list of that header's values; `keys` and `getAll` mirror the
  Angular accessors used by `getHeadersMap`.
* The body payload is an `Option String` (a structured payload or null).
* `TransferState` is an association list keyed by strings, with
  `hasKey` / `get` / `set` / `remove` mirroring the Angular service;
  `makeStateKey` is the identity on strings.
* An observable of HTTP events is modelled by the finite list of events
  it emits followed by an optional terminal error (`ForwardResult`).
  Subscribing to the `tap`-decorated stream is modelled by folding the
  tap side effect over the emitted events.
* `intercept` takes the interceptor state, the request and the stream the
  forward function would produce, and returns the new interceptor state,
  the returned stream and whether the forward function was invoked.
-/

namespace TransferHttpCache

/-- An HTTP request: only `method` and `url` are consulted by the code. -/
structure HttpRequest where
  method : String
  url : String
deriving DecidableEq

/-- Ordered header map: each name paired with its ordered list of values. -/
abbrev HttpHeaders : Type := List (String × List String)

/-- `headers.keys()` of the Angular `HttpHeaders` class. -/
def HttpHeaders.keys (h : HttpHeaders) : List String :=
  h.map Prod.fst

/-- `headers.getAll(key)` of the Angular `HttpHeaders` class: the full
ordered value list for the name, or `none` when the name is absent. -/
def HttpHeaders.getAll (h : HttpHeaders) (key : String) : Option (List String) :=
  (h.find? (fun e => e.1 == key)).map Prod.snd

/-- Source `getHeadersMap`: iterate the header names and capture the
complete value list of each (`headersMap[key] = headers.getAll(key)!`). -/
def getHeadersMap (headers : HttpHeaders) : HttpHeaders :=
  (HttpHeaders.keys headers).filterMap
    (fun key => (HttpHeaders.getAll headers key).map (fun vs => (key, vs)))

/-- A full HTTP response (the Angular `HttpResponse` event payload). -/
structure HttpResponseData where
  body : Option String
  headers : HttpHeaders
  status : Nat
  statusText : String
  url : String
deriving DecidableEq

/-- An event of the forwarded stream: a full response, or one of the
non-response lifecycle events (sent, progress reports, ...). -/
inductive HttpEvent where
  | sent : HttpEvent
  | other : Nat → HttpEvent
  | response : HttpResponseData → HttpEvent
deriving DecidableEq

/-- Whether an event is a full response (`event instanceof HttpResponse`). -/
def HttpEvent.isResponse : HttpEvent → Bool
  | .response _ => true
  | _ => false

/-- Source interface `TransferHttpResponse`: the snapshot stored in the
Transfer Store. -/
structure TransferHttpResponse where
  body : Option String
  headers : HttpHeaders
  status : Nat
  statusText : String
  url : String
deriving DecidableEq

/-- The `{} as TransferHttpResponse` default passed to `get`; it is never
observed because `hasKey` is checked before every `get`. -/
def emptyTransferResponse : TransferHttpResponse :=
  { body := none, headers := [], status := 0, statusText := "", url := "" }

/-- `makeStateKey` of `@angular/platform-browser`: a string key. -/
def makeStateKey (key : String) : String := key

/-- The Angular `TransferState` service: a string-keyed store. -/
structure TransferState where
  entries : List (String × TransferHttpResponse)
deriving DecidableEq

/-- `transferState.hasKey(key)`. -/
def TransferState.hasKey (s : TransferState) (key : String) : Bool :=
  s.entries.any (fun e => e.1 == key)

/-- The entry currently stored under `key`, if any. -/
def TransferState.get? (s : TransferState) (key : String) : Option TransferHttpResponse :=
  (s.entries.find? (fun e => e.1 == key)).map Prod.snd

/-- `transferState.get(key, default)`. -/
def TransferState.get (s : TransferState) (key : String)
    (dflt : TransferHttpResponse) : TransferHttpResponse :=
  (s.get? key).getD dflt

/-- `transferState.set(key, value)`: store `value` under `key`,
overwriting any previous entry. -/
def TransferState.set (s : TransferState) (key : String)
    (value : TransferHttpResponse) : TransferState :=
  ⟨(key, value) :: s.entries.filter (fun e => ¬(e.1 == key))⟩

/-- `transferState.remove(key)`: drop the entry under `key` if present. -/
def TransferState.remove (s : TransferState) (key : String) : TransferState :=
  ⟨s.entries.filter (fun e => ¬(e.1 == key))⟩

/-- Source interface `TransferHttpWhitelist`: one allow-listed URL prefix. -/
structure TransferHttpWhitelist where
  url : String
deriving DecidableEq

/-- The interceptor: the optional injected allow-list (`none` models an
absent `@Optional()` injection), the private `isCacheActive` flag, and the
injected Transfer Store it reads and writes. -/
structure Interceptor where
  whitelist : Option (List TransferHttpWhitelist)
  isCacheActive : Bool
  transferState : TransferState
deriving DecidableEq

/-- A freshly constructed interceptor: `isCacheActive` initialised `true`,
store and allow-list as injected. -/
def mkInterceptor (whitelist : Option (List TransferHttpWhitelist))
    (transferState : TransferState) : Interceptor :=
  { whitelist := whitelist, isCacheActive := true, transferState := transferState }

/-- Source `isMutating`: any method other than GET and HEAD. -/
def isMutating (req : HttpRequest) : Bool :=
  req.method != "GET" && req.method != "HEAD"

/-- JS `s.startsWith(p)`: `p`'s character sequence starts `s`'s character
sequence. This is `String.startsWith` expressed on the character lists so
that it evaluates by kernel reduction. -/
def strStartsWith (s p : String) : Bool :=
  p.data.isPrefixOf s.data

/-- Source `isAllowed`: with an injected allow-list (even an empty one),
some listed prefix must start the URL; with no allow-list, false. -/
def isAllowed (ic : Interceptor) (req : HttpRequest) : Bool :=
  match ic.whitelist with
  | some wl => wl.any (fun w => strStartsWith req.url w.url)
  | none => false

/-- Source `getKey`: first character of the method, a dot, the full URL. -/
def getKey (req : HttpRequest) : String :=
  req.method.take 1 ++ "." ++ req.url

/-- Source `invalidateCacheEntry`: remove the three key variants
`G.url`, `H.url`, `P.url`, unconditionally. -/
def invalidateCacheEntry (ts : TransferState) (url : String) : TransferState :=
  ["G", "H", "P"].foldl (fun s m => s.remove (makeStateKey (m ++ "." ++ url))) ts

/-- The snapshot recorded from a full response event. -/
def snapshotOf (event : HttpResponseData) : TransferHttpResponse :=
  { body := event.body
    headers := getHeadersMap event.headers
    status := event.status
    statusText := event.statusText
    url := event.url }

/-- The `tap` side effect attached to a cache-miss stream: on a full
response event, record its snapshot under `storeKey`; otherwise no-op. -/
def tapRecord (storeKey : String) (ts : TransferState) (event : HttpEvent) : TransferState :=
  match event with
  | .response r => ts.set storeKey (snapshotOf r)
  | _ => ts

/-- The synthesized `new HttpResponse({...})` built from a stored
snapshot; `new HttpHeaders(response.headers)` reconstructs the same
ordered header map. -/
def mkHttpResponse (response : TransferHttpResponse) : HttpResponseData :=
  { body := response.body
    headers := response.headers
    status := response.status
    statusText := response.statusText
    url := response.url }

/-- The stream the forward function (`next.handle(req)`) would produce:
its emitted events in order, then an optional terminal error. -/
structure ForwardResult where
  events : List HttpEvent
  error : Option String
deriving DecidableEq

/-- What `intercept` returns: a synthesized single-response stream, or a
passthrough of the forwarded stream (events and terminal error). -/
inductive Outcome where
  | synthesized : HttpResponseData → Outcome
  | passthrough : List HttpEvent → Option String → Outcome
deriving DecidableEq

/-- Result of one `intercept` call: the interceptor after the call and
after the returned stream has been consumed, the returned stream, and
whether the forward function was invoked. -/
structure InterceptResult where
  interceptor : Interceptor
  output : Outcome
  forwardInvoked : Bool
deriving DecidableEq

/-- Source `intercept`, with the subscription of the returned stream
included: classification, disqualification, flag gate, cache hit
synthesis, or forward with the recording `tap`. -/
def intercept (ic : Interceptor) (req : HttpRequest) (fwd : ForwardResult) :
    InterceptResult :=
  let isMut := isMutating req
  let isAllw := isAllowed ic req
  let ic1 :=
    if isMut || !isAllw then
      { ic with
          isCacheActive := false
          transferState := invalidateCacheEntry ic.transferState req.url }
    else ic
  if !ic1.isCacheActive then
    { interceptor := ic1
      output := .passthrough fwd.events fwd.error
      forwardInvoked := true }
  else
    let storeKey := makeStateKey (getKey req)
    if ic1.transferState.hasKey storeKey then
      { interceptor := ic1
        output := .synthesized
          (mkHttpResponse (ic1.transferState.get storeKey emptyTransferResponse))
        forwardInvoked := false }
    else
      { interceptor :=
          { ic1 with
              transferState := fwd.events.foldl (tapRecord storeKey) ic1.transferState }
        output := .passthrough fwd.events fwd.error
        forwardInvoked := true }

/-- One observable step on an interceptor instance: an `intercept` call,
or the one-shot application-stability signal firing (the constructor's
`then(() => { this.isCacheActive = false; })`). -/
inductive OpStep where
  | call : HttpRequest → ForwardResult → OpStep
  | stability : OpStep
deriving DecidableEq

/-- Apply one step to the interceptor state. -/
def step (ic : Interceptor) : OpStep → Interceptor
  | .call req fwd => (intercept ic req fwd).interceptor
  | .stability => { ic with isCacheActive := false }

/-- Run a sequence of steps from an interceptor state. -/
def run (ic : Interceptor) (ops : List OpStep) : Interceptor :=
  ops.foldl step ic

/-! ### Association-list store lemmas -/

theorem find?_filter_of_imp (l : List α) (p q : α → Bool)
    (h : ∀ e, p e = true → q e = true) :
    (l.filter q).find? p = l.find? p := by
  induction l with
  | nil => rfl
  | cons a t ih =>
    by_cases hq : q a = true
    · rw [List.filter_cons_of_pos hq]
      by_cases hp : p a = true
      · rw [List.find?_cons_of_pos _ hp, List.find?_cons_of_pos _ hp]
      · rw [List.find?_cons_of_neg _ hp, List.find?_cons_of_neg _ hp, ih]
    · rw [List.filter_cons_of_neg (by simpa using hq), ih,
        List.find?_cons_of_neg]
      intro hp
      exact hq (h a hp)

theorem get?_set_self (s : TransferState) (k : String) (v : TransferHttpResponse) :
    (s.set k v).get? k = some v := by
  simp [TransferState.set, TransferState.get?]

theorem get?_set_ne (s : TransferState) (k k' : String) (v : TransferHttpResponse)
    (h : k' ≠ k) : (s.set k v).get? k' = s.get? k' := by
  unfold TransferState.set TransferState.get?
  dsimp only
  rw [List.find?_cons_of_neg _ (by simpa using fun hk => h hk.symm)]
  rw [find?_filter_of_imp]
  intro e he
  simp only [beq_iff_eq] at he
  simp [he, h]

theorem hasKey_set_self (s : TransferState) (k : String) (v : TransferHttpResponse) :
    (s.set k v).hasKey k = true := by
  simp [TransferState.set, TransferState.hasKey]

theorem get?_remove_self (s : TransferState) (k : String) :
    (s.remove k).get? k = none := by
  unfold TransferState.remove TransferState.get?
  rw [List.find?_eq_none.mpr]
  · rfl
  · intro x hx
    simp only [List.mem_filter] at hx
    simpa using hx.2

theorem get?_remove_ne (s : TransferState) (k k' : String) (h : k' ≠ k) :
    (s.remove k).get? k' = s.get? k' := by
  unfold TransferState.remove TransferState.get?
  rw [find?_filter_of_imp]
  intro e he
  simp only [beq_iff_eq] at he
  simp [he, h]

theorem get?_remove_mono (s : TransferState) (k k' : String) (v : TransferHttpResponse)
    (h : (s.remove k).get? k' = some v) : s.get? k' = some v := by
  by_cases hk : k' = k
  · rw [hk, get?_remove_self] at h
    exact absurd h (by simp)
  · rwa [get?_remove_ne s k k' hk] at h

theorem remove_of_hasKey_false (s : TransferState) (k : String)
    (h : s.hasKey k = false) : s.remove k = s := by
  unfold TransferState.remove
  cases s with
  | mk entries =>
    congr 1
    rw [List.filter_eq_self]
    intro e he
    simp only [TransferState.hasKey, List.any_eq_false] at h
    simpa using h e he

theorem hasKey_eq_isSome_get? (s : TransferState) (k : String) :
    s.hasKey k = (s.get? k).isSome := by
  simp only [TransferState.hasKey, TransferState.get?, Option.isSome_map]
  rw [Bool.eq_iff_iff]
  simp [List.any_eq_true, List.find?_isSome]

/-! ### Invalidation lemmas -/

theorem invalidateCacheEntry_eq (ts : TransferState) (url : String) :
    invalidateCacheEntry ts url
      = ((ts.remove ("G." ++ url)).remove ("H." ++ url)).remove ("P." ++ url) := by
  have hg : ("G" : String) ++ "." ++ url = "G." ++ url :=
    congrArg (fun s => s ++ url) (by decide : ("G" : String) ++ "." = "G.")
  have hh : ("H" : String) ++ "." ++ url = "H." ++ url :=
    congrArg (fun s => s ++ url) (by decide : ("H" : String) ++ "." = "H.")
  have hp : ("P" : String) ++ "." ++ url = "P." ++ url :=
    congrArg (fun s => s ++ url) (by decide : ("P" : String) ++ "." = "P.")
  simp [invalidateCacheEntry, makeStateKey, hg, hh, hp]

theorem get?_invalidate_G (ts : TransferState) (url : String) :
    (invalidateCacheEntry ts url).get? ("G." ++ url) = none := by
  rw [invalidateCacheEntry_eq]
  by_cases h1 : ("G." ++ url) = ("P." ++ url)
  · rw [h1, get?_remove_self]
  by_cases h2 : ("G." ++ url) = ("H." ++ url)
  · rw [get?_remove_ne _ _ _ h1, h2, get?_remove_self]
  · rw [get?_remove_ne _ _ _ h1, get?_remove_ne _ _ _ h2, get?_remove_self]

theorem get?_invalidate_H (ts : TransferState) (url : String) :
    (invalidateCacheEntry ts url).get? ("H." ++ url) = none := by
  rw [invalidateCacheEntry_eq]
  by_cases h1 : ("H." ++ url) = ("P." ++ url)
  · rw [h1, get?_remove_self]
  · rw [get?_remove_ne _ _ _ h1, get?_remove_self]

theorem get?_invalidate_P (ts : TransferState) (url : String) :
    (invalidateCacheEntry ts url).get? ("P." ++ url) = none := by
  rw [invalidateCacheEntry_eq, get?_remove_self]

theorem get?_invalidate_other (ts : TransferState) (url k : String)
    (hg : k ≠ "G." ++ url) (hh : k ≠ "H." ++ url) (hp : k ≠ "P." ++ url) :
    (invalidateCacheEntry ts url).get? k = ts.get? k := by
  rw [invalidateCacheEntry_eq, get?_remove_ne _ _ _ hp, get?_remove_ne _ _ _ hh,
    get?_remove_ne _ _ _ hg]

theorem get?_invalidate_mono (ts : TransferState) (url k : String)
    (v : TransferHttpResponse)
    (h : (invalidateCacheEntry ts url).get? k = some v) : ts.get? k = some v := by
  rw [invalidateCacheEntry_eq] at h
  exact get?_remove_mono _ _ _ _ (get?_remove_mono _ _ _ _ (get?_remove_mono _ _ _ _ h))

theorem invalidate_of_absent (ts : TransferState) (url : String)
    (hg : ts.hasKey ("G." ++ url) = false)
    (hh : ts.hasKey ("H." ++ url) = false)
    (hp : ts.hasKey ("P." ++ url) = false) :
    invalidateCacheEntry ts url = ts := by
  rw [invalidateCacheEntry_eq, remove_of_hasKey_false _ _ hg,
    remove_of_hasKey_false _ _ hh, remove_of_hasKey_false _ _ hp]

/-! ### Recording-fold lemmas -/

theorem foldl_tapRecord_no_response (key : String) (evs : List HttpEvent)
    (h : ∀ e ∈ evs, e.isResponse = false) (ts : TransferState) :
    evs.foldl (tapRecord key) ts = ts := by
  induction evs generalizing ts with
  | nil => rfl
  | cons e t ih =>
    have he := h e (by simp)
    cases e with
    | response r => simp [HttpEvent.isResponse] at he
    | sent =>
      rw [List.foldl_cons]
      exact ih (fun x hx => h x (by simp [hx])) _
    | other n =>
      rw [List.foldl_cons]
      exact ih (fun x hx => h x (by simp [hx])) _

theorem foldl_tapRecord_single (key : String) (pre post : List HttpEvent)
    (r : HttpResponseData)
    (hPre : ∀ e ∈ pre, e.isResponse = false)
    (hPost : ∀ e ∈ post, e.isResponse = false) (ts : TransferState) :
    (pre ++ HttpEvent.response r :: post).foldl (tapRecord key) ts
      = ts.set key (snapshotOf r) := by
  rw [List.foldl_append, foldl_tapRecord_no_response key pre hPre, List.foldl_cons]
  exact foldl_tapRecord_no_response key post hPost _

/-! ### Header-map lemmas -/

theorem getAll_eq_none_of_not_mem (h : HttpHeaders) (k : String)
    (hk : k ∉ HttpHeaders.keys h) : HttpHeaders.getAll h k = none := by
  unfold HttpHeaders.getAll
  rw [List.find?_eq_none.mpr]
  · rfl
  · intro e he
    simp only [beq_iff_eq]
    intro heq
    exact hk (heq ▸ List.mem_map_of_mem Prod.fst he)

theorem getAll_isSome_of_mem (h : HttpHeaders) (k : String)
    (hk : k ∈ HttpHeaders.keys h) : (HttpHeaders.getAll h k).isSome = true := by
  unfold HttpHeaders.getAll
  have hmap : ∀ (o : Option (String × List String)),
      (Option.map Prod.snd o).isSome = o.isSome := by
    intro o
    cases o <;> rfl
  rw [hmap, List.find?_isSome]
  simp only [HttpHeaders.keys, List.mem_map] at hk
  obtain ⟨e, he, heq⟩ := hk
  exact ⟨e, he, by simp [heq]⟩

theorem getAll_filterMapKeys (ks : List String) (h : HttpHeaders) (k : String) :
    HttpHeaders.getAll
        (ks.filterMap (fun key => (HttpHeaders.getAll h key).map (fun vs => (key, vs)))) k
      = if k ∈ ks ∧ (HttpHeaders.getAll h k).isSome then HttpHeaders.getAll h k
        else none := by
  induction ks with
  | nil => simp [HttpHeaders.getAll]
  | cons a t ih =>
    cases hga : HttpHeaders.getAll h a with
    | none =>
      simp only [List.filterMap_cons, hga, Option.map_none']
      rw [ih]
      by_cases hk : k = a
      · subst hk
        simp [hga]
      · simp [hk]
    | some vs =>
      simp only [List.filterMap_cons, hga, Option.map_some']
      by_cases hk : a = k
      · subst hk
        have hcons : HttpHeaders.getAll ((a, vs) ::
            t.filterMap (fun key => (HttpHeaders.getAll h key).map (fun vs => (key, vs)))) a
            = some vs := by
          unfold HttpHeaders.getAll
          rw [List.find?_cons_of_pos _ (by simp)]
          rfl
        rw [hcons, hga]
        simp [hga]
      · have hcons : HttpHeaders.getAll ((a, vs) ::
            t.filterMap (fun key => (HttpHeaders.getAll h key).map (fun vs => (key, vs)))) k
            = HttpHeaders.getAll
                (t.filterMap (fun key => (HttpHeaders.getAll h key).map (fun vs => (key, vs)))) k := by
          unfold HttpHeaders.getAll
          rw [List.find?_cons_of_neg _ (by simpa using hk)]
        rw [hcons, ih]
        have hka : ¬k = a := fun hh => hk hh.symm
        simp [hka]

theorem getAll_getHeadersMap (h : HttpHeaders) (k : String) :
    HttpHeaders.getAll (getHeadersMap h) k = HttpHeaders.getAll h k := by
  rw [getHeadersMap, getAll_filterMapKeys]
  by_cases hk : k ∈ HttpHeaders.keys h
  · simp [hk, getAll_isSome_of_mem h k hk]
  · simp [hk, getAll_eq_none_of_not_mem h k hk]

/-! ### Branch lemmas for `intercept` -/

theorem intercept_disqualified (ic : Interceptor) (req : HttpRequest)
    (fwd : ForwardResult)
    (hd : (isMutating req || !isAllowed ic req) = true) :
    intercept ic req fwd =
      { interceptor :=
          { ic with
              isCacheActive := false
              transferState := invalidateCacheEntry ic.transferState req.url }
        output := .passthrough fwd.events fwd.error
        forwardInvoked := true } := by
  simp [intercept, hd]

theorem intercept_inactive (ic : Interceptor) (req : HttpRequest)
    (fwd : ForwardResult)
    (hd : (isMutating req || !isAllowed ic req) = false)
    (hflag : ic.isCacheActive = false) :
    intercept ic req fwd =
      { interceptor := ic
        output := .passthrough fwd.events fwd.error
        forwardInvoked := true } := by
  simp [intercept, hd, hflag]

theorem intercept_hit (ic : Interceptor) (req : HttpRequest) (fwd : ForwardResult)
    (hd : (isMutating req || !isAllowed ic req) = false)
    (hflag : ic.isCacheActive = true)
    (hkey : ic.transferState.hasKey (makeStateKey (getKey req)) = true) :
    intercept ic req fwd =
      { interceptor := ic
        output := .synthesized
          (mkHttpResponse (ic.transferState.get (makeStateKey (getKey req))
            emptyTransferResponse))
        forwardInvoked := false } := by
  simp [intercept, hd, hflag, hkey]

theorem intercept_miss (ic : Interceptor) (req : HttpRequest) (fwd : ForwardResult)
    (hd : (isMutating req || !isAllowed ic req) = false)
    (hflag : ic.isCacheActive = true)
    (hkey : ic.transferState.hasKey (makeStateKey (getKey req)) = false) :
    intercept ic req fwd =
      { interceptor :=
          { ic with
              transferState :=
                fwd.events.foldl (tapRecord (makeStateKey (getKey req))) ic.transferState }
        output := .passthrough fwd.events fwd.error
        forwardInvoked := true } := by
  simp [intercept, hd, hflag, hkey]

/-! ### Further helper lemmas -/

theorem get?_foldl_tapRecord_ne (key : String) (evs : List HttpEvent)
    (ts : TransferState) (k : String) (h : k ≠ key) :
    (evs.foldl (tapRecord key) ts).get? k = ts.get? k := by
  induction evs generalizing ts with
  | nil => rfl
  | cons e t ih =>
    cases e with
    | response r =>
      rw [List.foldl_cons]
      show (t.foldl (tapRecord key) (ts.set key (snapshotOf r))).get? k = ts.get? k
      rw [ih, get?_set_ne _ _ _ _ h]
    | sent =>
      rw [List.foldl_cons]
      exact ih ts
    | other n =>
      rw [List.foldl_cons]
      exact ih ts

theorem method_of_not_mutating (req : HttpRequest) (h : isMutating req = false) :
    req.method = "GET" ∨ req.method = "HEAD" := by
  unfold isMutating at h
  rcases Bool.and_eq_false_iff.mp h with h1 | h1
  · left
    simpa using h1
  · right
    simpa using h1

theorem getKey_GET (req : HttpRequest) (h : req.method = "GET") :
    getKey req = "G." ++ req.url := by
  unfold getKey
  rw [h]
  exact congrArg (fun s => s ++ req.url) (by decide : ("GET" : String).take 1 ++ "." = "G.")

theorem getKey_HEAD (req : HttpRequest) (h : req.method = "HEAD") :
    getKey req = "H." ++ req.url := by
  unfold getKey
  rw [h]
  exact congrArg (fun s => s ++ req.url) (by decide : ("HEAD" : String).take 1 ++ "." = "H.")

theorem intercept_flag_false (ic : Interceptor) (req : HttpRequest)
    (fwd : ForwardResult) (h : ic.isCacheActive = false) :
    (intercept ic req fwd).interceptor.isCacheActive = false := by
  cases hd : (isMutating req || !isAllowed ic req) with
  | true => rw [intercept_disqualified ic req fwd hd]
  | false =>
    rw [intercept_inactive ic req fwd hd h]
    exact h

theorem step_flag_false (ic : Interceptor) (op : OpStep)
    (h : ic.isCacheActive = false) : (step ic op).isCacheActive = false := by
  cases op with
  | call req fwd => exact intercept_flag_false ic req fwd h
  | stability => rfl

theorem run_flag_false (ic : Interceptor) (ops : List OpStep)
    (h : ic.isCacheActive = false) : (run ic ops).isCacheActive = false := by
  induction ops generalizing ic with
  | nil => exact h
  | cons op t ih =>
    rw [run, List.foldl_cons]
    exact ih (step ic op) (step_flag_false ic op h)

/-! ### Concrete scenario used by the witnesses -/

/-- Allow-list holding the single prefix `/api`. -/
def wlW : List TransferHttpWhitelist := [⟨"/api"⟩]

/-- A full response to `/api/x` with a multi-valued header. -/
def respW : HttpResponseData :=
  { body := some "payload"
    headers := [("X", ["a", "b"])]
    status := 200
    statusText := "OK"
    url := "/api/x" }

/-- The snapshot the interceptor records from `respW`. -/
def snapW : TransferHttpResponse := snapshotOf respW

/-- A GET to the allow-listed URL `/api/x`. -/
def reqGetW : HttpRequest := ⟨"GET", "/api/x"⟩

/-- A mutating POST to the same URL. -/
def reqPostW : HttpRequest := ⟨"POST", "/api/x"⟩

/-- A forwarded stream: a sent event, the full response, then completion. -/
def fwdW : ForwardResult := ⟨[HttpEvent.sent, HttpEvent.response respW], none⟩

/-- A forwarded stream carrying a trailing non-response event. -/
def fwdTrailW : ForwardResult :=
  ⟨[HttpEvent.sent, HttpEvent.response respW, HttpEvent.other 1], none⟩

/-- An empty forwarded stream. -/
def fwdEmptyW : ForwardResult := ⟨[], none⟩

/-- A forwarded stream that errors before any full response. -/
def fwdErrW : ForwardResult := ⟨[HttpEvent.sent], some "network failure"⟩

/-- A freshly constructed interceptor over an empty store. -/
def icFreshW : Interceptor := mkInterceptor (some wlW) ⟨[]⟩

/-- An active interceptor whose store already holds the GET entry. -/
def icCachedW : Interceptor :=
  { whitelist := some wlW, isCacheActive := true
    transferState := ⟨[("G./api/x", snapW)]⟩ }

/-- An active interceptor whose store holds all three key variants for
`/api/x` plus an unrelated entry. -/
def icFullW : Interceptor :=
  { whitelist := some wlW, isCacheActive := true
    transferState :=
      ⟨[("G./api/x", snapW), ("H./api/x", snapW), ("P./api/x", snapW),
        ("G./other", snapW)]⟩ }

/-- An interceptor constructed with no allow-list. -/
def icNoWlW : Interceptor := mkInterceptor none ⟨[]⟩

/-! ### Claim theorems -/

/-- C2: the cache-activity flag of a fresh interceptor instance starts
true, and across any sequence of intercept calls and stability firings,
once the flag is false it is never true again at a later observation
point of the same instance. -/
theorem cacheFlag_monotone (wl : Option (List TransferHttpWhitelist))
    (ts : TransferState) (ops extra : List OpStep) :
    (mkInterceptor wl ts).isCacheActive = true
    ∧ ((run (mkInterceptor wl ts) ops).isCacheActive = false →
        (run (mkInterceptor wl ts) (ops ++ extra)).isCacheActive = false) := by
  refine ⟨rfl, fun h => ?_⟩
  rw [run, List.foldl_append]
  exact run_flag_false _ extra h

/-- Witness for C2: the stability signal deactivates a fresh instance and
the flag is still false after a further read-only allow-listed call. -/
theorem cacheFlag_monotone_witness :
    (run (mkInterceptor (some wlW) ⟨[]⟩) [OpStep.stability]).isCacheActive = false
    ∧ (run (mkInterceptor (some wlW) ⟨[]⟩)
        ([OpStep.stability] ++ [OpStep.call reqGetW fwdEmptyW])).isCacheActive = false :=
  ⟨by decide,
    (cacheFlag_monotone (some wlW) ⟨[]⟩ [OpStep.stability]
      [OpStep.call reqGetW fwdEmptyW]).2 (by decide)⟩

/-- C3: a mutating or non-allowed request sets the flag false and removes
the three key variants `G.url`, `H.url`, `P.url` from the store, leaves
all other keys untouched, and the removal is a no-op (not a failure) when
the keys are absent; no hypothesis on the flag, so this also holds when
the flag was already false. -/
theorem disqualification_invalidates (ic : Interceptor) (req : HttpRequest)
    (fwd : ForwardResult)
    (hd : (isMutating req || !isAllowed ic req) = true) :
    (intercept ic req fwd).interceptor.isCacheActive = false
    ∧ (intercept ic req fwd).interceptor.transferState
        = invalidateCacheEntry ic.transferState req.url
    ∧ (intercept ic req fwd).interceptor.transferState.get? ("G." ++ req.url) = none
    ∧ (intercept ic req fwd).interceptor.transferState.get? ("H." ++ req.url) = none
    ∧ (intercept ic req fwd).interceptor.transferState.get? ("P." ++ req.url) = none
    ∧ (∀ k, k ≠ "G." ++ req.url → k ≠ "H." ++ req.url → k ≠ "P." ++ req.url →
        (intercept ic req fwd).interceptor.transferState.get? k
          = ic.transferState.get? k)
    ∧ (ic.transferState.hasKey ("G." ++ req.url) = false →
        ic.transferState.hasKey ("H." ++ req.url) = false →
        ic.transferState.hasKey ("P." ++ req.url) = false →
        (intercept ic req fwd).interceptor.transferState = ic.transferState) := by
  rw [intercept_disqualified ic req fwd hd]
  refine ⟨rfl, rfl, get?_invalidate_G _ _, get?_invalidate_H _ _,
    get?_invalidate_P _ _, ?_, ?_⟩
  · intro k hg hh hp
    exact get?_invalidate_other _ _ _ hg hh hp
  · intro hg hh hp
    exact invalidate_of_absent _ _ hg hh hp

/-- Witness for C3: a POST to `/api/x` against a store holding all three
variants removes them, keeps the unrelated key, and flips the flag. -/
theorem disqualification_invalidates_witness :
    (isMutating reqPostW || !isAllowed icFullW reqPostW) = true
    ∧ (intercept icFullW reqPostW fwdEmptyW).interceptor.isCacheActive = false
    ∧ (intercept icFullW reqPostW fwdEmptyW).interceptor.transferState.get?
        ("G." ++ reqPostW.url) = none
    ∧ (intercept icFullW reqPostW fwdEmptyW).interceptor.transferState.get?
        "G./other" = icFullW.transferState.get? "G./other" :=
  ⟨by decide,
    (disqualification_invalidates icFullW reqPostW fwdEmptyW (by decide)).1,
    (disqualification_invalidates icFullW reqPostW fwdEmptyW (by decide)).2.2.1,
    (disqualification_invalidates icFullW reqPostW fwdEmptyW
      (by decide)).2.2.2.2.2.1 "G./other" (by decide) (by decide) (by decide)⟩

/-- C6: the cache key is the first character of the method, a dot, and
the full URL; GET and HEAD to `/api/x` give the distinct keys
`G./api/x` and `H./api/x`. -/
theorem key_derivation :
    (∀ m u : String, getKey ⟨m, u⟩ = m.take 1 ++ "." ++ u)
    ∧ getKey ⟨"GET", "/api/x"⟩ = "G./api/x"
    ∧ getKey ⟨"HEAD", "/api/x"⟩ = "H./api/x"
    ∧ getKey ⟨"GET", "/api/x"⟩ ≠ getKey ⟨"HEAD", "/api/x"⟩ :=
  ⟨fun _ _ => rfl, by decide, by decide, by decide⟩

/-- C7: with an absent or empty allow-list no request is allowed, and
every request is disqualified: the flag flips false, the request is
forwarded, and the invalidation removal runs. -/
theorem empty_whitelist_disqualifies (ic : Interceptor) (req : HttpRequest)
    (fwd : ForwardResult)
    (hwl : ic.whitelist = none ∨ ic.whitelist = some []) :
    isAllowed ic req = false
    ∧ (intercept ic req fwd).interceptor.isCacheActive = false
    ∧ (intercept ic req fwd).output = Outcome.passthrough fwd.events fwd.error
    ∧ (intercept ic req fwd).interceptor.transferState
        = invalidateCacheEntry ic.transferState req.url := by
  have hall : isAllowed ic req = false := by
    rcases hwl with h | h <;> simp [isAllowed, h]
  have hd : (isMutating req || !isAllowed ic req) = true := by
    rw [hall]
    simp
  rw [intercept_disqualified ic req fwd hd]
  exact ⟨hall, rfl, rfl, rfl⟩

/-- Witness for C7: a GET on an instance with no injected allow-list is
not allowed and deactivates the cache. -/
theorem empty_whitelist_disqualifies_witness :
    (icNoWlW.whitelist = none ∨ icNoWlW.whitelist = some [])
    ∧ isAllowed icNoWlW reqGetW = false
    ∧ (intercept icNoWlW reqGetW fwdEmptyW).interceptor.isCacheActive = false :=
  ⟨Or.inl rfl,
    (empty_whitelist_disqualifies icNoWlW reqGetW fwdEmptyW (Or.inl rfl)).1,
    (empty_whitelist_disqualifies icNoWlW reqGetW fwdEmptyW (Or.inl rfl)).2.1⟩

/-- C9: on a cache hit (flag true, read-only, allowed, key present) the
call mutates nothing: the interceptor — flag and every store key — is
exactly what it was, and the forward function is not invoked. -/
theorem cache_hit_frame (ic : Interceptor) (req : HttpRequest)
    (fwd : ForwardResult)
    (hActive : ic.isCacheActive = true)
    (hRead : isMutating req = false)
    (hAllw : isAllowed ic req = true)
    (hHit : ic.transferState.hasKey (makeStateKey (getKey req)) = true) :
    (intercept ic req fwd).interceptor = ic
    ∧ (intercept ic req fwd).forwardInvoked = false := by
  have hd : (isMutating req || !isAllowed ic req) = false := by
    rw [hRead, hAllw]
    rfl
  rw [intercept_hit ic req fwd hd hActive hHit]
  exact ⟨rfl, rfl⟩

/-- Witness for C9: a GET hit on a pre-populated store leaves the
interceptor untouched and does not forward. -/
theorem cache_hit_frame_witness :
    icCachedW.isCacheActive = true
    ∧ isMutating reqGetW = false
    ∧ isAllowed icCachedW reqGetW = true
    ∧ icCachedW.transferState.hasKey (makeStateKey (getKey reqGetW)) = true
    ∧ (intercept icCachedW reqGetW fwdEmptyW).interceptor = icCachedW
    ∧ (intercept icCachedW reqGetW fwdEmptyW).forwardInvoked = false :=
  ⟨by decide, by decide, by decide, by decide,
    (cache_hit_frame icCachedW reqGetW fwdEmptyW (by decide) (by decide)
      (by decide) (by decide)).1,
    (cache_hit_frame icCachedW reqGetW fwdEmptyW (by decide) (by decide)
      (by decide) (by decide)).2⟩

/-- C1: on a cache miss of an allow-listed read-only request while the
flag is true, the first `intercept` records the snapshot of the response
event under the computed key, and a second `intercept` with the identical
request does not invoke the forward function and returns a synthesized
response whose body, headers (every value of every header, in order),
status, statusText and url equal the recorded snapshot's fields. -/
theorem roundTrip_replay (ic : Interceptor) (req : HttpRequest)
    (fwd fwd2 : ForwardResult) (r : HttpResponseData)
    (pre post : List HttpEvent)
    (hActive : ic.isCacheActive = true)
    (hRead : isMutating req = false)
    (hAllw : isAllowed ic req = true)
    (hMiss : ic.transferState.hasKey (makeStateKey (getKey req)) = false)
    (hEvents : fwd.events = pre ++ HttpEvent.response r :: post)
    (hPre : ∀ e ∈ pre, e.isResponse = false)
    (hPost : ∀ e ∈ post, e.isResponse = false) :
    (intercept ic req fwd).interceptor.transferState.get?
        (makeStateKey (getKey req)) = some (snapshotOf r)
    ∧ (intercept (intercept ic req fwd).interceptor req fwd2).forwardInvoked = false
    ∧ (intercept (intercept ic req fwd).interceptor req fwd2).output
        = Outcome.synthesized (mkHttpResponse (snapshotOf r))
    ∧ (mkHttpResponse (snapshotOf r)).body = (snapshotOf r).body
    ∧ (mkHttpResponse (snapshotOf r)).headers = (snapshotOf r).headers
    ∧ (mkHttpResponse (snapshotOf r)).status = (snapshotOf r).status
    ∧ (mkHttpResponse (snapshotOf r)).statusText = (snapshotOf r).statusText
    ∧ (mkHttpResponse (snapshotOf r)).url = (snapshotOf r).url
    ∧ (∀ n : String, HttpHeaders.getAll (mkHttpResponse (snapshotOf r)).headers n
        = HttpHeaders.getAll r.headers n) := by
  have hd : (isMutating req || !isAllowed ic req) = false := by
    rw [hRead, hAllw]
    rfl
  rw [intercept_miss ic req fwd hd hActive hMiss]
  have hfold : fwd.events.foldl (tapRecord (makeStateKey (getKey req))) ic.transferState
      = ic.transferState.set (makeStateKey (getKey req)) (snapshotOf r) := by
    rw [hEvents]
    exact foldl_tapRecord_single _ _ _ _ hPre hPost _
  rw [hfold]
  have hd2 : (isMutating req || !isAllowed
      ({ ic with transferState := TransferState.set ic.transferState (makeStateKey (getKey req)) (snapshotOf r) }
        : Interceptor) req) = false := hd
  have hhit : (TransferState.set ic.transferState (makeStateKey (getKey req))
      (snapshotOf r)).hasKey (makeStateKey (getKey req)) = true :=
    hasKey_set_self _ _ _
  rw [intercept_hit
    { ic with transferState := TransferState.set ic.transferState (makeStateKey (getKey req)) (snapshotOf r) }
    req fwd2 hd2 hActive hhit]
  have hget : (TransferState.set ic.transferState (makeStateKey (getKey req))
        (snapshotOf r)).get (makeStateKey (getKey req)) emptyTransferResponse
      = snapshotOf r := by
    rw [TransferState.get, get?_set_self]
    rfl
  refine ⟨get?_set_self _ _ _, rfl, ?_, rfl, rfl, rfl, rfl, rfl, ?_⟩
  · rw [hget]
  · intro n
    exact getAll_getHeadersMap r.headers n

/-- Witness for C1: GET `/api/x` recorded then replayed, with the
multi-valued header `X: [a, b]` intact. -/
theorem roundTrip_replay_witness :
    icFreshW.isCacheActive = true
    ∧ icFreshW.transferState.hasKey (makeStateKey (getKey reqGetW)) = false
    ∧ (intercept icFreshW reqGetW fwdW).interceptor.transferState.get?
        (makeStateKey (getKey reqGetW)) = some (snapshotOf respW)
    ∧ (intercept (intercept icFreshW reqGetW fwdW).interceptor reqGetW
        fwdEmptyW).forwardInvoked = false
    ∧ (intercept (intercept icFreshW reqGetW fwdW).interceptor reqGetW
        fwdEmptyW).output = Outcome.synthesized (mkHttpResponse (snapshotOf respW))
    ∧ HttpHeaders.getAll (mkHttpResponse (snapshotOf respW)).headers "X"
        = some ["a", "b"] := by
  have h := roundTrip_replay icFreshW reqGetW fwdW fwdEmptyW respW
    [HttpEvent.sent] [] (by decide) (by decide) (by decide) (by decide) rfl
    (by decide) (by decide)
  refine ⟨by decide, by decide, h.1, h.2.1, h.2.2.1, ?_⟩
  rw [h.2.2.2.2.2.2.2.2 "X"]
  decide

/-- C5: on a cache miss the store after the call equals a single `set` of
the snapshot of the stream's one response event — the write happens
exactly once, the surrounding non-response events write nothing — and the
whole event stream and its termination are passed through unmodified. -/
theorem miss_records_once (ic : Interceptor) (req : HttpRequest)
    (fwd : ForwardResult) (r : HttpResponseData)
    (pre post : List HttpEvent)
    (hActive : ic.isCacheActive = true)
    (hRead : isMutating req = false)
    (hAllw : isAllowed ic req = true)
    (hMiss : ic.transferState.hasKey (makeStateKey (getKey req)) = false)
    (hEvents : fwd.events = pre ++ HttpEvent.response r :: post)
    (hPre : ∀ e ∈ pre, e.isResponse = false)
    (hPost : ∀ e ∈ post, e.isResponse = false) :
    (intercept ic req fwd).interceptor.transferState
        = ic.transferState.set (makeStateKey (getKey req)) (snapshotOf r)
    ∧ (intercept ic req fwd).output = Outcome.passthrough fwd.events fwd.error
    ∧ (intercept ic req fwd).forwardInvoked = true
    ∧ (intercept ic req fwd).interceptor.isCacheActive = true
    ∧ (intercept ic req fwd).interceptor.whitelist = ic.whitelist := by
  have hd : (isMutating req || !isAllowed ic req) = false := by
    rw [hRead, hAllw]
    rfl
  rw [intercept_miss ic req fwd hd hActive hMiss]
  refine ⟨?_, rfl, rfl, hActive, rfl⟩
  rw [hEvents]
  exact foldl_tapRecord_single _ _ _ _ hPre hPost _

/-- Witness for C5: the recording happens once even with a trailing
non-response event, and the stream passes through unchanged. -/
theorem miss_records_once_witness :
    (intercept icFreshW reqGetW fwdTrailW).interceptor.transferState
        = icFreshW.transferState.set (makeStateKey (getKey reqGetW)) (snapshotOf respW)
    ∧ (intercept icFreshW reqGetW fwdTrailW).output
        = Outcome.passthrough fwdTrailW.events fwdTrailW.error
    ∧ (intercept icFreshW reqGetW fwdTrailW).forwardInvoked = true := by
  have h := miss_records_once icFreshW reqGetW fwdTrailW respW
    [HttpEvent.sent] [HttpEvent.other 1] (by decide) (by decide) (by decide)
    (by decide) rfl (by decide) (by decide)
  exact ⟨h.1, h.2.1, h.2.2.1⟩

/-- C8: when the forwarded stream errors before any full response event,
the returned stream (whenever the request was in fact forwarded) carries
exactly the same events and the same error, and no snapshot write occurs:
every entry of the store after the call was already present with the same
value before it. -/
theorem error_transparency (ic : Interceptor) (req : HttpRequest)
    (fwd : ForwardResult) (msg : String)
    (hErr : fwd.error = some msg)
    (hNoResp : ∀ e ∈ fwd.events, e.isResponse = false) :
    ((intercept ic req fwd).forwardInvoked = true →
        (intercept ic req fwd).output = Outcome.passthrough fwd.events (some msg))
    ∧ (∀ k v, (intercept ic req fwd).interceptor.transferState.get? k = some v →
        ic.transferState.get? k = some v) := by
  cases hd : (isMutating req || !isAllowed ic req) with
  | true =>
    rw [intercept_disqualified ic req fwd hd]
    exact ⟨fun _ => by rw [hErr], fun k v hk => get?_invalidate_mono _ _ _ _ hk⟩
  | false =>
    cases hflag : ic.isCacheActive with
    | false =>
      rw [intercept_inactive ic req fwd hd hflag]
      exact ⟨fun _ => by rw [hErr], fun k v hk => hk⟩
    | true =>
      cases hkey : ic.transferState.hasKey (makeStateKey (getKey req)) with
      | true =>
        rw [intercept_hit ic req fwd hd hflag hkey]
        exact ⟨fun hfi => by simp at hfi, fun k v hk => hk⟩
      | false =>
        rw [intercept_miss ic req fwd hd hflag hkey]
        have hfold : fwd.events.foldl (tapRecord (makeStateKey (getKey req)))
            ic.transferState = ic.transferState :=
          foldl_tapRecord_no_response _ _ hNoResp _
        refine ⟨fun _ => by rw [hErr], fun k v hk => ?_⟩
        have hk2 : (fwd.events.foldl (tapRecord (makeStateKey (getKey req)))
            ic.transferState).get? k = some v := hk
        rw [hfold] at hk2
        exact hk2

/-- Witness for C8: an errored forward of a fresh GET passes the error
through and leaves the store's (absent) GET entry unwritten. -/
theorem error_transparency_witness :
    fwdErrW.error = some "network failure"
    ∧ (intercept icFreshW reqGetW fwdErrW).output
        = Outcome.passthrough fwdErrW.events (some "network failure")
    ∧ (intercept icFreshW reqGetW fwdErrW).interceptor.transferState.get?
        "G./api/x" = none :=
  ⟨rfl,
    (error_transparency icFreshW reqGetW fwdErrW "network failure" rfl
      (by decide)).1 (by decide),
    by decide⟩

/-- C10: any store entry present after an `intercept` call that was not
already present with the same value before it lies under the request's
own key for a read-only method: the request is non-mutating and the key
begins with `G.` or `H.`; in particular a mutating request never causes a
store write. -/
theorem write_key_invariant (ic : Interceptor) (req : HttpRequest)
    (fwd : ForwardResult) (k : String) (v : TransferHttpResponse)
    (hNew : (intercept ic req fwd).interceptor.transferState.get? k = some v)
    (hOld : ic.transferState.get? k ≠ some v) :
    isMutating req = false
    ∧ ((∃ rest, k = "G." ++ rest) ∨ (∃ rest, k = "H." ++ rest)) := by
  cases hd : (isMutating req || !isAllowed ic req) with
  | true =>
    rw [intercept_disqualified ic req fwd hd] at hNew
    exact absurd (get?_invalidate_mono _ _ _ _ hNew) hOld
  | false =>
    have hRead : isMutating req = false := by
      cases hm : isMutating req
      · rfl
      · rw [hm] at hd
        simp at hd
    cases hflag : ic.isCacheActive with
    | false =>
      rw [intercept_inactive ic req fwd hd hflag] at hNew
      exact absurd hNew hOld
    | true =>
      cases hkey : ic.transferState.hasKey (makeStateKey (getKey req)) with
      | true =>
        rw [intercept_hit ic req fwd hd hflag hkey] at hNew
        exact absurd hNew hOld
      | false =>
        rw [intercept_miss ic req fwd hd hflag hkey] at hNew
        by_cases hkk : k = makeStateKey (getKey req)
        · refine ⟨hRead, ?_⟩
          rcases method_of_not_mutating req hRead with hm | hm
          · exact Or.inl ⟨req.url, by rw [hkk, makeStateKey, getKey_GET req hm]⟩
          · exact Or.inr ⟨req.url, by rw [hkk, makeStateKey, getKey_HEAD req hm]⟩
        · have hNew2 : (fwd.events.foldl (tapRecord (makeStateKey (getKey req)))
              ic.transferState).get? k = some v := hNew
          rw [get?_foldl_tapRecord_ne _ _ _ _ hkk] at hNew2
          exact absurd hNew2 hOld

/-- Witness for C10: the entry created by a fresh GET miss sits under the
`G.`-prefixed key of a non-mutating request. -/
theorem write_key_invariant_witness :
    (intercept icFreshW reqGetW fwdW).interceptor.transferState.get?
        "G./api/x" = some snapW
    ∧ icFreshW.transferState.get? "G./api/x" ≠ some snapW
    ∧ (isMutating reqGetW = false
        ∧ ((∃ rest, ("G./api/x" : String) = "G." ++ rest)
            ∨ (∃ rest, ("G./api/x" : String) = "H." ++ rest))) :=
  ⟨by decide, by decide,
    write_key_invariant icFreshW reqGetW fwdW "G./api/x" snapW
      (by decide) (by decide)⟩

/-- C4 counterexample: the claim says that after the stability signal has
fired no later `intercept` call touches the Transfer Store; but a
mutating call still runs the invalidation removal, which changes the
store of this deactivated instance. -/
theorem postStability_store_touch_counterexample :
    (run icCachedW [OpStep.stability]).isCacheActive = false
    ∧ ¬((intercept (run icCachedW [OpStep.stability]) reqPostW
          fwdEmptyW).interceptor.transferState
        = (run icCachedW [OpStep.stability]).transferState) := by
  decide

/-- C4 (amended): after the flag is false every `intercept` forwards the
stream verbatim and unconditionally; a read-only allow-listed request
leaves the interceptor — store included — exactly unchanged, while a
disqualifying request may still perform the best-effort removal of the
three key variants for its URL. -/
theorem postStability_forwarding (ic : Interceptor) (req : HttpRequest)
    (fwd : ForwardResult)
    (hflag : ic.isCacheActive = false) :
    (intercept ic req fwd).output = Outcome.passthrough fwd.events fwd.error
    ∧ (intercept ic req fwd).forwardInvoked = true
    ∧ ((isMutating req || !isAllowed ic req) = false →
        (intercept ic req fwd).interceptor = ic)
    ∧ ((isMutating req || !isAllowed ic req) = true →
        (intercept ic req fwd).interceptor.transferState
          = invalidateCacheEntry ic.transferState req.url) := by
  cases hd : (isMutating req || !isAllowed ic req) with
  | false =>
    rw [intercept_inactive ic req fwd hd hflag]
    exact ⟨rfl, rfl, fun _ => rfl, fun hc => by simp at hc⟩
  | true =>
    rw [intercept_disqualified ic req fwd hd]
    exact ⟨rfl, rfl, fun hc => by simp at hc, fun _ => rfl⟩

/-- Witness for C4 (amended): a still-cached GET after stability forwards
without touching the instance. -/
theorem postStability_forwarding_witness :
    (run icCachedW [OpStep.stability]).isCacheActive = false
    ∧ (intercept (run icCachedW [OpStep.stability]) reqGetW fwdEmptyW).output
        = Outcome.passthrough fwdEmptyW.events fwdEmptyW.error
    ∧ (intercept (run icCachedW [OpStep.stability]) reqGetW fwdEmptyW).interceptor
        = run icCachedW [OpStep.stability] :=
  ⟨by decide,
    (postStability_forwarding (run icCachedW [OpStep.stability]) reqGetW
      fwdEmptyW (by decide)).1,
    (postStability_forwarding (run icCachedW [OpStep.stability]) reqGetW
      fwdEmptyW (by decide)).2.2.1 (by decide)⟩

end TransferHttpCache
